import Mathlib

/-!
Verification of the build orchestrator of `cross-game-rpg`.

The development shallowly embeds the Python build script:
`build.py` (orchestrator and bounded-parallelism scheduler),
`build_script/utils.py` (path translation),
`build_script/zig_utils.py` (compile and link tasks),
`build_script/pkg_config_utils.py` (library detection) and
`build_script/libs/sdl.py` (SDL2 configuration check).

External subprocesses are modelled by oracles: a function from the
command vector to the process's exit code and captured output.  The
asyncio event loop, semaphore and `asyncio.gather` aggregation are
modelled by a deterministic step function parametrised by a schedule
choosing which in-flight subprocess finishes next; quantifying over
schedules quantifies over completion orders.
-/

/- ### Python string and path primitives -/

/-- Fuel-driven scan for `replaceList`: each step consumes at least one input
character and one unit of fuel, so fuel `s.length` always suffices. -/
def replaceFuel (pat rep : List Char) : Nat → List Char → List Char
  | _, [] => []
  | 0, s => s
  | fuel + 1, c :: cs =>
    if pat ≠ [] ∧ pat.isPrefixOf (c :: cs) then
      rep ++ replaceFuel pat rep fuel (cs.drop (pat.length - 1))
    else
      c :: replaceFuel pat rep fuel cs

/-- Model of Python `str.replace(pat, rep)` on character lists: replaces every
non-overlapping occurrence of `pat`, scanning left to right.  (Python's special
behaviour on an empty pattern is not modelled; every use in the build script
has a non-empty pattern, and we return the string unchanged in that case.) -/
def replaceList (pat rep s : List Char) : List Char :=
  replaceFuel pat rep s.length s

/-- Model of Python `str.replace` on `String`. -/
def pyReplace (s pat rep : String) : String :=
  ⟨replaceList pat.data rep.data s.data⟩

/-- Whether `pat` occurs as a contiguous sublist of `s`. -/
def hasSubstr (pat : List Char) : List Char → Bool
  | [] => pat.isEmpty
  | c :: cs => pat.isPrefixOf (c :: cs) || hasSubstr pat cs

/-- Split a character list at every character satisfying `p`, keeping empty
pieces (the splitting behaviour of Python `str.split(sep)` for a one-character
separator, generalised to a predicate). -/
def splitPred (p : Char → Bool) : List Char → List (List Char)
  | [] => [[]]
  | c :: cs =>
    let r := splitPred p cs
    if p c then [] :: r
    else
      match r with
      | [] => [[c]]
      | q :: qs => (c :: q) :: qs

/-- Join a list of strings with a separator (Python `sep.join(parts)`). -/
def joinSep (sep : String) : List String → String
  | [] => ""
  | [x] => x
  | x :: xs => x ++ sep ++ joinSep sep xs

/-- Model of Python `str.split()` with no argument: split on whitespace runs,
discarding empty pieces. -/
def pySplitWs (s : String) : List String :=
  ((splitPred Char.isWhitespace s.data).map (fun cs => String.mk cs)).filter
    (fun piece => piece ≠ "")

/-- Everything of `cs` strictly before its last `'.'`; `cs` itself if there is
no dot.  This is Python `s.rsplit('.', 1)[0]`. -/
def dropAfterLastDot (cs : List Char) : List Char :=
  match cs.reverse.dropWhile (fun c => c ≠ '.') with
  | [] => cs
  | _ :: rest => rest.reverse

/-- String version of `dropAfterLastDot`. -/
def pyRsplitDotHead (s : String) : String :=
  ⟨dropAfterLastDot s.data⟩

/-- Drop the longest shared leading run of two component lists, returning the
two remainders.  Helper for the `os.path.relpath` model. -/
def stripShared : List String → List String → List String × List String
  | x :: xs, y :: ys =>
    if x = y then stripShared xs ys else (x :: xs, y :: ys)
  | xs, ys => (xs, ys)

/-- Model of `os.path.relpath(path, start)` (POSIX), restricted to the case the
build script exercises: both arguments are relative, already-normalised paths
resolved against the same working directory, so `abspath` contributes a common
prefix that cancels.  Components are split on `'/'`, empty components dropped
(as `posixpath.relpath` does), the shared leading components removed, and the
remainder of `start` replaced by `..` entries. -/
def relpathModel (path start : String) : String :=
  let p := ((splitPred (fun c => c = '/') path.data).map String.mk).filter
    (fun c => c ≠ "")
  let s := ((splitPred (fun c => c = '/') start.data).map String.mk).filter
    (fun c => c ≠ "")
  let r := stripShared p s
  let comps := r.2.map (fun _ => "..") ++ r.1
  if comps = [] then "." else joinSep "/" comps

/-- Model of `os.path.join(a, b)` (POSIX) for one joined component. -/
def pyPathJoin (a b : String) : String :=
  if b.data.head? = some '/' then b
  else if a = "" ∨ a.data.getLast? = some '/' then a ++ b
  else a ++ "/" ++ b

/- ### build_script/utils.py -/

/-- Embedding of `utils.translate_to_build_path`: relativise the source path
against the source root, normalise separators, rewrite the extension to `.o`
and re-root under the build directory.  (The `os.makedirs` side effect only
creates directories and does not affect the returned path.) -/
def translate_to_build_path (file_path source_dir build_dir : String) : String :=
  let rel := relpathModel file_path source_dir
  let rel := pyReplace rel "\\" "/"
  let rel := pyRsplitDotHead rel ++ ".o"
  pyPathJoin build_dir rel

/-- Embedding of `utils.translate_to_build_path_zig`: as
`translate_to_build_path` but with the extension stripped and nothing
appended. -/
def translate_to_build_path_zig (file_path source_dir build_dir : String) : String :=
  let rel := relpathModel file_path source_dir
  let rel := pyReplace rel "\\" "/"
  let rel := pyRsplitDotHead rel
  pyPathJoin build_dir rel

/- ### Subprocess oracle -/

/-- Observable outcome of one external process: its exit code and captured,
decoded stdout/stderr text. -/
structure ProcResult where
  exitCode : Int
  stdout : String
  stderr : String
deriving Repr, DecidableEq

/-- A process runner: an oracle mapping a command vector to the behaviour of
the subprocess it launches. -/
def Runner : Type := List String → ProcResult

/- ### build_script/pkg_config_utils.py -/

/-- Embedding of `pkg_config_utils.pkg_config_exists`: runs
`pkg-config --exists <name>` with `check=True`; the `CalledProcessError` on a
non-zero exit is caught and mapped to `False`. -/
def pkg_config_exists (runner : Runner) (package_name : String) : Bool :=
  (runner ["pkg-config", "--exists", package_name]).exitCode == 0

/-- Embedding of `pkg_config_utils.get_pkg_config_cflags`: runs
`pkg-config --cflags --libs <name>` capturing output with `check=True`;
on success returns `stdout.split()`, and the `CalledProcessError` raised on a
non-zero exit is caught and mapped to the empty list. -/
def get_pkg_config_cflags (runner : Runner) (package_name : String) : List String :=
  let r := runner ["pkg-config", "--cflags", "--libs", package_name]
  if r.exitCode = 0 then pySplitWs r.stdout else []

/-- Embedding of `pkg_config_utils.get_pkg_config_libs`: runs
`pkg-config --libs <name>`; same failure handling as
`get_pkg_config_cflags`. -/
def get_pkg_config_libs (runner : Runner) (package_name : String) : List String :=
  let r := runner ["pkg-config", "--libs", package_name]
  if r.exitCode = 0 then pySplitWs r.stdout else []

/- ### build_script/libs/sdl.py -/

/-- Diagnostic raised by `sdl.init_sdl2` when pkg-config does not know sdl2. -/
def sdl2MissingMsg : String :=
  "SDL2 not found via pkg-config. Please install SDL2 development files."

/-- Embedding of `sdl.init_sdl2`: raises when `pkg_config_exists "sdl2"` is
false, otherwise returns the cflags list. -/
def init_sdl2 (runner : Runner) : Except String (List String) :=
  if !pkg_config_exists runner "sdl2" then
    .error sdl2MissingMsg
  else
    .ok (get_pkg_config_cflags runner "sdl2")

/- ### build_script/zig_utils.py: compile and link tasks -/

/-- Compiler command vectors from `zig_utils.py`. -/
def c_compiler : List String := ["zig", "cc"]

/-- C++ compiler command vector. -/
def cxx_compiler : List String := ["zig", "c++"]

/-- Object-file compiler command vector for the primary (Zig) language. -/
def zig_compiler : List String := ["zig", "build-obj"]

/-- Link command vector. -/
def zig_compile_executable : List String := ["zig", "build-exe"]

/-- Handle returned by `asyncio.subprocess.create_subprocess_exec`: the
`returncode` attribute of the handle is `None` until the subprocess has been
reaped by an `await …wait()`; only then does it carry the real exit code. -/
structure AsyncProcessHandle where
  command : List String
  eventualExitCode : Int
deriving Repr, DecidableEq

/-- The `returncode` attribute read immediately after
`create_subprocess_exec`, before any `wait()`: the child has not been reaped,
so it is `None`. -/
def AsyncProcessHandle.returncodeAtSpawn (_ : AsyncProcessHandle) : Option Int :=
  none

/-- The `returncode` attribute after `await …wait()`: the real exit code. -/
def AsyncProcessHandle.returncodeAfterWait (p : AsyncProcessHandle) : Option Int :=
  some p.eventualExitCode

/-- Observable outcome of one compile task: the value returned or diagnostic
raised, the lines printed, and the commands spawned. -/
structure CompileOutcome where
  result : Except String String
  printed : List String
  spawned : List (List String)
deriving Repr

/-- The `print("Compile:", file, "->", out)` header line. -/
def compileHeader (file_path output_file : String) : String :=
  "Compile: " ++ file_path ++ " -> " ++ output_file

/-- Embedding of `zig_utils.compile_source_c_cpp_async`.  The source spawns
the compiler (streams inherited, not captured) and then tests
`res.returncode != 0` immediately, without `await res.wait()`; at that point
`returncode` is still `None`, and in Python `None != 0` is `True`, so the
failure branch is taken unconditionally and nothing of the compiler's output
is captured or printed. -/
def compile_source_c_cpp_async (runner : Runner) (file_path : String)
    (compiler : List String) (output_file : Option String)
    (option : List String) : CompileOutcome :=
  let out := output_file.getD (translate_to_build_path file_path "src" "build")
  let command := compiler ++ option ++ [file_path, "-o", out]
  let res : AsyncProcessHandle :=
    { command := command, eventualExitCode := (runner command).exitCode }
  if res.returncodeAtSpawn ≠ some 0 then
    { result := .error ("Compilation failed for " ++ file_path)
      printed := [compileHeader file_path out]
      spawned := [command] }
  else
    { result := .ok out
      printed := [compileHeader file_path out]
      spawned := [command] }

/-- Embedding of `zig_utils.compile_c_source_async`. -/
def compile_c_source_async (runner : Runner) (file_path : String)
    (output_file : Option String) (option : List String) : CompileOutcome :=
  compile_source_c_cpp_async runner file_path c_compiler output_file option

/-- Embedding of `zig_utils.compile_cpp_source_async`. -/
def compile_cpp_source_async (runner : Runner) (file_path : String)
    (output_file : Option String) (option : List String) : CompileOutcome :=
  compile_source_c_cpp_async runner file_path cxx_compiler output_file option

/-- Embedding of `zig_utils.compile_zig_source_async`.  This task pipes
stdout/stderr, performs `await res.wait()`, and on a non-zero exit prints the
captured stdout, the captured stderr and the joined command line before
raising; on exit 0 it returns `output_file + ".o"`. -/
def compile_zig_source_async (runner : Runner) (file_path : String)
    (output_file : Option String) (option : List String) : CompileOutcome :=
  let out := output_file.getD (translate_to_build_path file_path "src" "build")
  let command := zig_compiler ++ option ++ [file_path, "-femit-bin=" ++ out]
  let r := runner command
  if r.exitCode ≠ 0 then
    { result := .error ("Compilation failed for " ++ file_path)
      printed := [compileHeader file_path (out ++ ".o"), r.stdout, r.stderr,
                  joinSep " " command]
      spawned := [command] }
  else
    { result := .ok (out ++ ".o")
      printed := [compileHeader file_path (out ++ ".o")]
      spawned := [command] }

/-- Observable outcome of the link task. -/
structure LinkOutcome where
  result : Except String String
  printed : List String
  command : List String
deriving Repr

/-- Embedding of `zig_utils.link_executable_async`: build the command as
`zig build-exe -femit-bin=<output> <objects…> <options…>`, pipe and await the
subprocess, and on a non-zero exit print the captured stdout, the captured
stderr and the joined command line before raising `LinkError`; on exit 0
return the executable path. -/
def link_executable_async (runner : Runner) (object_files : List String)
    (output_executable : String) (option : List String) : LinkOutcome :=
  let command := zig_compile_executable
    ++ ["-femit-bin=" ++ output_executable] ++ object_files ++ option
  let header := "Compile: " ++ joinSep " + " object_files
    ++ " -> " ++ output_executable
  let r := runner command
  if r.exitCode ≠ 0 then
    { result := .error ("Linking failed for " ++ output_executable)
      printed := [header, r.stdout, r.stderr, joinSep " " command]
      command := command }
  else
    { result := .ok output_executable
      printed := [header]
      command := command }

/-- Embedding of `zig_utils.link_executable`: the synchronous wrapper just
runs the async body to completion. -/
def link_executable (runner : Runner) (object_files : List String)
    (output_executable : String) (option : List String) : LinkOutcome :=
  link_executable_async runner object_files output_executable option

/- ### The scheduler of build.py -/

/-!
`compile_sources` creates one `limit_thread(sem, compile_…_async, …)` task per
source file (all Zig files, then all C files, then all C++ files), with
`sem = asyncio.Semaphore(os.cpu_count())`, and runs
`asyncio.gather(*tasks)` to completion with `asyncio.run`.

The model below is a small-step event loop over task indices.  Each task's
behaviour is abstracted by its outcome `res i : Except String String` (the
value returned or exception raised by the wrapped compile coroutine), since
`limit_thread` is parametric in the wrapped coroutine.  Faithful features:

* tasks start in creation order; `Semaphore.acquire` admits a task only when
  a permit is free, FIFO among waiters, and the permit is released on every
  exit path of the `async with` block;
* a task only invokes its compiler subprocess after acquiring the permit;
* the completion order of admitted subprocesses is arbitrary — it is chosen
  by an external `sched` sequence, and theorems quantify over it;
* `asyncio.gather` (without `return_exceptions`) propagates the first
  exception to the awaiter as soon as the failing task completes, without
  awaiting the remaining tasks; the results of an all-successful gather are
  ordered by submission index, not by completion time;
* the failing task's `async with` releases its permit before the exception
  reaches `gather`; the release wakes the head FIFO waiter, which acquires
  the permit and launches its compiler subprocess before the main coroutine
  raises; when it then does, `asyncio.run` cancels every remaining task:
  tasks still waiting on `acquire` are cancelled before ever invoking their
  subprocess, and admitted tasks are interrupted, their `async with`
  releasing the permit.
-/

/-- Scheduler state.  `pending` are tasks waiting on the semaphore, in FIFO
order; `running` are tasks holding a permit with their subprocess in flight;
`sem` is the number of free permits; `peak` records the largest number of
simultaneous permit holders seen; `invoked` lists tasks whose subprocess was
launched, in launch order; `released` lists permit releases in order;
`finished` lists completed tasks in completion order; `cancelled` lists tasks
cancelled while still waiting (subprocess never launched); `interrupted` lists
admitted tasks cancelled at shutdown mid-subprocess. -/
structure SchedState where
  pending : List Nat
  running : List Nat
  sem : Nat
  peak : Nat
  invoked : List Nat
  released : List Nat
  finished : List Nat
  cancelled : List Nat
  interrupted : List Nat
deriving Repr, DecidableEq

/-- Initial scheduler state: `n` tasks queued in creation order, `c` free
permits (the CPU count), nothing started. -/
def initSched (n c : Nat) : SchedState :=
  { pending := List.range n
    running := []
    sem := c
    peak := 0
    invoked := []
    released := []
    finished := []
    cancelled := []
    interrupted := [] }

/-- Admission loop: while a permit is free and a task is waiting, the head of
the FIFO queue acquires the permit and launches its subprocess. -/
def admitGo : List Nat → SchedState → SchedState
  | [], st => { st with pending := [] }
  | i :: ps, st =>
    match st.sem with
    | 0 => { st with pending := i :: ps }
    | s + 1 =>
      admitGo ps
        { st with
          pending := ps
          running := st.running ++ [i]
          sem := s
          peak := max st.peak (st.running.length + 1)
          invoked := st.invoked ++ [i] }

/-- Admit as many pending tasks as free permits allow. -/
def admitAll (st : SchedState) : SchedState :=
  admitGo st.pending st

/-- Completion of the subprocess of the task at position `k` of the running
list (task index `i`): the task leaves the running list, its `async with`
releases the permit, and its completion is recorded. -/
def finishStep (st1 : SchedState) (i : Nat) (k : Nat) : SchedState :=
  { st1 with
    running := st1.running.eraseIdx k
    sem := st1.sem + 1
    released := st1.released ++ [i]
    finished := st1.finished ++ [i] }

/-- Wake-up performed by the failing task's permit release before the
exception reaches the awaiter: `Semaphore.release` wakes the head FIFO
waiter via `call_soon`, and that callback runs before `gather`'s
done-callback propagates the exception, so the woken task acquires the
permit and launches its compiler subprocess (the spawn in
`create_subprocess_exec` happens before its first suspension) before the
shutdown cancellation lands.  Exactly one waiter is woken, the release
having freed exactly one permit. -/
def abortAdmit (st2 : SchedState) : SchedState :=
  match st2.pending with
  | [] => st2
  | j :: ps =>
    match st2.sem with
    | 0 => st2
    | s + 1 =>
      { st2 with
        pending := ps
        running := st2.running ++ [j]
        sem := s
        peak := max st2.peak (st2.running.length + 1)
        invoked := st2.invoked ++ [j] }

/-- Shutdown cancellation performed by `asyncio.run` after the main coroutine
raises: tasks still waiting on `acquire` are cancelled without ever invoking
a subprocess, and admitted tasks (including the waiter just woken by the
failing task's release) are interrupted mid-subprocess, their `async with`
blocks releasing the permits on unwind. -/
def abortState (st2 : SchedState) : SchedState :=
  { st2 with
    pending := []
    running := []
    sem := st2.sem + st2.running.length
    released := st2.released ++ st2.running
    cancelled := st2.pending
    interrupted := st2.running }

/-- One round of the event loop: admit whoever can acquire the semaphore,
then let the schedule pick an in-flight subprocess to finish.  Completion of
a successful task releases its permit and the loop continues; completion of a
failing task releases its permit, propagates the exception through
`asyncio.gather`, and `asyncio.run` then cancels all remaining tasks.
Returns the final state and the propagated exception, if any. -/
def loopRun (res : Nat → Except String String) :
    List Nat → Nat → SchedState → SchedState × Option String
  | _, 0, st => (st, none)
  | sched, fuel + 1, st =>
    let st1 := admitAll st
    if st1.running.length = 0 then (st1, none)
    else
      let k := sched.headD 0 % st1.running.length
      let i := st1.running.getD k 0
      match res i with
      | .ok _ => loopRun res sched.tail fuel (finishStep st1 i k)
      | .error e => (abortState (abortAdmit (finishStep st1 i k)), some e)

/-- Run the scheduler on `n` tasks with `c` permits: fuel `n + 1` covers one
round per task completion plus the final empty round. -/
def schedExec (c n : Nat) (res : Nat → Except String String)
    (sched : List Nat) : SchedState × Option String :=
  loopRun res sched (n + 1) (initSched n c)

/-- Return value of `asyncio.run(gather_tasks(*tasks))` as `compile_sources`
observes it: the propagated exception if any task failed, otherwise the list
of task results in submission order. -/
def gatherResult (c n : Nat) (res : Nat → Except String String)
    (sched : List Nat) : Except String (List String) :=
  match (schedExec c n res sched).2 with
  | some e => .error e
  | none => (List.range n).mapM res

/- ### The orchestrator of build.py -/

/-- Artifact paths in submission order, as the compile tasks of
`compile_sources` compute them: the Zig task returns its translated path with
`".o"` appended by the compiler, the C and C++ tasks return their translated
paths directly. -/
def taskArtifacts (zig_files c_files cpp_files : List String)
    (source_dir build_dir : String) : List String :=
  zig_files.map (fun f => translate_to_build_path_zig f source_dir build_dir ++ ".o")
    ++ c_files.map (fun f => translate_to_build_path f source_dir build_dir)
    ++ cpp_files.map (fun f => translate_to_build_path f source_dir build_dir)

/-- Source files in task-submission order (Zig, then C, then C++). -/
def taskSources (zig_files c_files cpp_files : List String) : List String :=
  zig_files ++ c_files ++ cpp_files

/-- Configuration and oracles of one invocation of `build.py`. -/
structure BuildEnv where
  cpuCount : Nat
  isTargetWindows : Bool
  buildDirArg : String
  sourceDir : String
  outputName : String
  platformFlags : List String
  zig_files : List String
  c_files : List String
  cpp_files : List String
  pkgRunner : Runner
  exitOf : Nat → Int
  linkRunner : Runner
  sched : List Nat

/-- Number of compile tasks of a build. -/
def BuildEnv.taskCount (env : BuildEnv) : Nat :=
  env.zig_files.length + env.c_files.length + env.cpp_files.length

/-- Outcome of compile task `i` as `gather` records it: the computed artifact
path when the subprocess exits with code 0, the raised `Compilation failed`
diagnostic otherwise. -/
def BuildEnv.taskRes (env : BuildEnv) (i : Nat) : Except String String :=
  if env.exitOf i = 0 then
    .ok ((taskArtifacts env.zig_files env.c_files env.cpp_files
      env.sourceDir env.buildDirArg).getD i "")
  else
    .error ("Compilation failed for "
      ++ (taskSources env.zig_files env.c_files env.cpp_files).getD i "")

/-- Embedding of line 69 of `build.py`:
`list_object = [obj.replace(".o", ".obj") for obj in list_object]`. -/
def windowsObjectRename (list_object : List String) : List String :=
  list_object.map (fun obj => pyReplace obj ".o" ".obj")

/-- Observable outcome of one run of `build.py`. -/
structure BuildOutcome where
  result : Except String String
  schedState : SchedState
  linkInvoked : Bool

/-- Embedding of the top-level flow of `build.py`: compute
`opt = platform.flags(...) + sdl.init_sdl2()` (raising before any compilation
when pkg-config does not know sdl2), run `compile_sources` (raising, without
linking, when the gathered tasks raised), on a Windows-family target rename
`.o` to `.obj` in every artifact and append `.exe` to the output path, and
finally call `zig_utils.link_executable`. -/
def buildMain (env : BuildEnv) : BuildOutcome :=
  match init_sdl2 env.pkgRunner with
  | .error e =>
    { result := .error e, schedState := initSched 0 env.cpuCount,
      linkInvoked := false }
  | .ok cflags =>
    let opt := env.platformFlags ++ cflags
    let n := env.taskCount
    let run := schedExec env.cpuCount n env.taskRes env.sched
    match gatherResult env.cpuCount n env.taskRes env.sched with
    | .error e =>
      { result := .error e, schedState := run.1, linkInvoked := false }
    | .ok list_object =>
      let list_object :=
        if env.isTargetWindows then windowsObjectRename list_object
        else list_object
      let output := pyPathJoin env.buildDirArg env.outputName
      let output := if env.isTargetWindows then output ++ ".exe" else output
      let link := link_executable env.linkRunner list_object output opt
      { result := link.result, schedState := run.1, linkInvoked := true }


/- ### Scheduler invariants -/

/-- Number of tasks that have not completed yet. -/
def unfinished (st : SchedState) : Nat :=
  st.pending.length + st.running.length

/-- Invariant of the scheduler loop, holding at every state the event loop
reaches before a failure aborts the run.  `c` is the permit count, `n` the
task count, `res` the task outcome oracle. -/
structure SchedInv (c n : Nat) (res : Nat → Except String String)
    (st : SchedState) : Prop where
  perm : (st.pending : Multiset Nat) + ↑st.running + ↑st.finished =
    (List.range n : Multiset Nat)
  invokedEq : (st.invoked : Multiset Nat) = ↑st.running + ↑st.finished
  releasedEq : st.released = st.finished
  semEq : st.sem + st.running.length = c
  peakLe : st.peak ≤ c
  cancelledNil : st.cancelled = []
  interruptedNil : st.interrupted = []
  finishedOk : ∀ i ∈ st.finished, ∃ v, res i = Except.ok v

/-- Postcondition of a full scheduler run over `n` tasks with permit count
`c`: the peak number of concurrent permit holders never exceeded `c`; every
acquired permit was released exactly once (even in aborted runs); no task was
admitted twice; all permits are back at the end; a run that returns normally
completed every task successfully, with nothing cancelled; a run that raises
reports the genuine failure of one of the tasks, namely the first completed
failing one, with every remaining task cancelled or interrupted. -/
structure SchedPost (c n : Nat) (res : Nat → Except String String)
    (out : SchedState × Option String) : Prop where
  peakLe : out.1.peak ≤ c
  releasedMatchesInvoked : (out.1.released : Multiset Nat) = ↑out.1.invoked
  invokedNodup : out.1.invoked.Nodup
  semRestored : out.1.sem = c
  complete : out.2 = none →
    out.1.pending = [] ∧ out.1.running = [] ∧
    out.1.finished.Perm (List.range n) ∧
    out.1.released = out.1.finished ∧
    out.1.invoked.Perm (List.range n) ∧
    out.1.cancelled = [] ∧ out.1.interrupted = []
  allOk : out.2 = none → ∀ i, i < n → ∃ v, res i = Except.ok v
  failReported : ∀ e, out.2 = some e → ∃ i, i < n ∧ res i = Except.error e
  failShape : ∀ e, out.2 = some e →
    ∃ i, out.1.finished.getLast? = some i ∧ res i = Except.error e ∧
      (∀ j ∈ out.1.finished.dropLast, ∃ v, res j = Except.ok v) ∧
      (out.1.finished ++ out.1.interrupted ++ out.1.cancelled).Perm
        (List.range n) ∧
      out.1.invoked.Perm (out.1.finished ++ out.1.interrupted) ∧
      out.1.pending = [] ∧ out.1.running = []

/- ### Concrete oracles and environments for witnesses -/

/-- The command vector built by `link_executable_async`. -/
def link_command (output_executable : String)
    (object_files option : List String) : List String :=
  zig_compile_executable ++ ["-femit-bin=" ++ output_executable]
    ++ object_files ++ option

/-- A runner whose subprocesses always exit with code 0. -/
def zeroExitRunner : Runner :=
  fun _ => { exitCode := 0, stdout := "", stderr := "" }

/-- A runner whose subprocesses always exit with code 1. -/
def oneExitRunner : Runner :=
  fun _ => { exitCode := 1, stdout := "boom-out", stderr := "boom-err" }

/-- Task outcomes with exactly one failing task (task 0) among five. -/
def oneFailingOfFive : Nat → Except String String :=
  fun i => if i = 0 then Except.error "boom" else Except.ok "obj"

/-- A concrete healthy build: one Zig, one C and one C++ file, two CPUs,
everything succeeding. -/
def sampleEnv : BuildEnv :=
  { cpuCount := 2
    isTargetWindows := false
    buildDirArg := "build"
    sourceDir := "src"
    outputName := "app"
    platformFlags := ["-O", "Debug"]
    zig_files := ["src/main.zig"]
    c_files := ["src/a.c"]
    cpp_files := ["src/b.cpp"]
    pkgRunner := zeroExitRunner
    exitOf := fun _ => 0
    linkRunner := zeroExitRunner
    sched := [] }

/-- The healthy build with the C compile task (task 1) failing. -/
def sampleEnvFail : BuildEnv :=
  { sampleEnv with exitOf := fun i => if i = 1 then 1 else 0 }

/-- The healthy build on a host whose pkg-config does not know sdl2. -/
def sampleEnvNoSdl : BuildEnv :=
  { sampleEnv with pkgRunner := oneExitRunner }

/-- Removing the element at index `k` from a list splits off exactly that
element, as multisets. -/
theorem multiset_eraseIdx (l : List Nat) (k : Nat) (h : k < l.length) :
    (l : Multiset Nat) = l[k] ::ₘ (l.eraseIdx k : List Nat) := by
  induction l generalizing k with
  | nil => simp at h
  | cons a t ih =>
    cases k with
    | zero => simp [List.eraseIdx]
    | succ k' =>
      have h' : k' < t.length := by simpa using h
      have := ih k' h'
      simp only [List.eraseIdx, List.getElem_cons_succ]
      rw [← Multiset.cons_coe, ← Multiset.cons_coe, this, Multiset.cons_swap]

/-- The invariant holds initially. -/
theorem schedInv_initSched (c n : Nat) (res : Nat → Except String String) :
    SchedInv c n res (initSched n c) := by
  constructor <;> simp [initSched]

/-- The admission loop only stops with tasks still waiting when no permit is
free. -/
theorem admitGo_pending_ne_nil (ps : List Nat) (st : SchedState)
    (h : (admitGo ps st).pending ≠ []) : (admitGo ps st).sem = 0 := by
  induction ps generalizing st with
  | nil => simp [admitGo] at h
  | cons i ps ih =>
    match hs : st.sem with
    | 0 => simp [admitGo, hs]
    | s + 1 =>
      simp only [admitGo, hs] at h ⊢
      exact ih _ h

/-- The admission loop does not change the bookkeeping lists of completed,
released or cancelled tasks, nor the number of unfinished tasks. -/
theorem admitGo_fields (ps : List Nat) (st : SchedState) :
    (admitGo ps st).finished = st.finished ∧
    (admitGo ps st).released = st.released ∧
    (admitGo ps st).cancelled = st.cancelled ∧
    (admitGo ps st).interrupted = st.interrupted ∧
    (admitGo ps st).pending.length + (admitGo ps st).running.length =
      ps.length + st.running.length := by
  induction ps generalizing st with
  | nil => simp [admitGo]
  | cons i ps ih =>
    match hs : st.sem with
    | 0 => simp [admitGo, hs]
    | s + 1 =>
      have hgo : admitGo (i :: ps) st = admitGo ps
          { st with
            pending := ps
            running := st.running ++ [i]
            sem := s
            peak := max st.peak (st.running.length + 1)
            invoked := st.invoked ++ [i] } := by
        simp [admitGo, hs]
      rw [hgo]
      obtain ⟨f1, f2, f3, f4, f5⟩ := ih { st with
            pending := ps
            running := st.running ++ [i]
            sem := s
            peak := max st.peak (st.running.length + 1)
            invoked := st.invoked ++ [i] }
      refine ⟨f1, f2, f3, f4, ?_⟩
      rw [f5]
      simp only [List.length_append, List.length_cons, List.length_nil]
      omega

/-- The admission loop preserves the invariant. -/
theorem admitGo_schedInv (c n : Nat) (res : Nat → Except String String)
    (ps : List Nat) (st : SchedState) (hps : st.pending = ps)
    (hinv : SchedInv c n res st) : SchedInv c n res (admitGo ps st) := by
  induction ps generalizing st with
  | nil =>
    have hgo : admitGo [] st = { st with pending := [] } := by simp [admitGo]
    rw [hgo]
    obtain ⟨h1, h2, h3, h4, h5, h6, h7, h8⟩ := hinv
    rw [hps] at h1
    exact ⟨by simpa using h1, h2, h3, h4, h5, h6, h7, h8⟩
  | cons i ps ih =>
    match hs : st.sem with
    | 0 =>
      have hgo : admitGo (i :: ps) st = { st with pending := i :: ps } := by
        simp [admitGo, hs]
      rw [hgo]
      obtain ⟨h1, h2, h3, h4, h5, h6, h7, h8⟩ := hinv
      rw [hps] at h1
      exact ⟨h1, h2, h3, h4, h5, h6, h7, h8⟩
    | s + 1 =>
      have hgo : admitGo (i :: ps) st = admitGo ps
          { st with
            pending := ps
            running := st.running ++ [i]
            sem := s
            peak := max st.peak (st.running.length + 1)
            invoked := st.invoked ++ [i] } := by
        simp [admitGo, hs]
      rw [hgo]
      apply ih _ rfl
      obtain ⟨h1, h2, h3, h4, h5, h6, h7, h8⟩ := hinv
      rw [hps] at h1
      rw [hs] at h4
      refine ⟨?_, ?_, h3, ?_, ?_, h6, h7, h8⟩
      · show (↑ps + ↑(st.running ++ [i]) + ↑st.finished : Multiset Nat) =
          ↑(List.range n)
        rw [← h1]
        simp only [← Multiset.coe_add, ← Multiset.cons_coe,
          Multiset.coe_singleton, ← Multiset.singleton_add]
        abel
      · show (↑(st.invoked ++ [i]) : Multiset Nat) =
          ↑(st.running ++ [i]) + ↑st.finished
        simp only [← Multiset.coe_add, ← Multiset.cons_coe,
          Multiset.coe_singleton, ← Multiset.singleton_add]
        rw [h2]
        abel
      · show s + (st.running ++ [i]).length = c
        simp only [List.length_append, List.length_cons, List.length_nil]
        omega
      · show max st.peak (st.running.length + 1) ≤ c
        exact max_le h5 (by omega)

/-- Removing an element shortens the list by exactly one. -/
theorem eraseIdx_length_succ (l : List Nat) (k : Nat) (h : k < l.length) :
    (l.eraseIdx k).length + 1 = l.length := by
  have hc := congrArg Multiset.card (multiset_eraseIdx l k h)
  simpa using hc.symm

/-- Any task in the running list is one of the `n` tasks. -/
theorem running_mem_range (c n : Nat) (res : Nat → Except String String)
    (st1 : SchedState) (hinv : SchedInv c n res st1) (i : Nat)
    (hi : i ∈ st1.running) : i < n := by
  have hm : i ∈ (List.range n : Multiset Nat) := by
    rw [← hinv.perm]
    simp only [Multiset.mem_add, Multiset.mem_coe]
    exact Or.inl (Or.inr hi)
  simpa using hm

/-- A successful completion step preserves the invariant. -/
theorem finishStep_schedInv (c n : Nat) (res : Nat → Except String String)
    (st1 : SchedState) (k : Nat) (hinv : SchedInv c n res st1)
    (hk : k < st1.running.length) (v : String)
    (hres : res (st1.running.getD k 0) = Except.ok v) :
    SchedInv c n res (finishStep st1 (st1.running.getD k 0) k) := by
  obtain ⟨h1, h2, h3, h4, h5, h6, h7, h8⟩ := hinv
  have hi : st1.running.getD k 0 = st1.running[k] := List.getD_eq_getElem _ 0 hk
  have hsplit : (st1.running : Multiset Nat) =
      st1.running[k] ::ₘ ↑(st1.running.eraseIdx k) := multiset_eraseIdx _ _ hk
  rw [← Multiset.singleton_add] at hsplit
  have hlen := eraseIdx_length_succ st1.running k hk
  refine ⟨?_, ?_, ?_, ?_, h5, h6, h7, ?_⟩
  · show (↑st1.pending + ↑(st1.running.eraseIdx k)
        + ↑(st1.finished ++ [st1.running.getD k 0]) : Multiset Nat) =
      ↑(List.range n)
    rw [← h1, hsplit, hi]
    simp only [← Multiset.coe_add, ← Multiset.cons_coe,
      Multiset.coe_singleton, ← Multiset.singleton_add]
    abel
  · show (↑st1.invoked : Multiset Nat) =
      ↑(st1.running.eraseIdx k) + ↑(st1.finished ++ [st1.running.getD k 0])
    rw [h2, hsplit, hi]
    simp only [← Multiset.coe_add, ← Multiset.cons_coe,
      Multiset.coe_singleton, ← Multiset.singleton_add]
    abel
  · show st1.released ++ [st1.running.getD k 0] =
      st1.finished ++ [st1.running.getD k 0]
    rw [h3]
  · show st1.sem + 1 + (st1.running.eraseIdx k).length = c
    omega
  · show ∀ j ∈ st1.finished ++ [st1.running.getD k 0], ∃ v, res j = Except.ok v
    intro j hj
    rcases List.mem_append.mp hj with hj | hj
    · exact h8 j hj
    · rcases List.mem_singleton.mp hj with rfl
      exact ⟨v, hres⟩

/-- A completion step reduces the number of unfinished tasks by one. -/
theorem finishStep_unfinished (st1 : SchedState) (i k : Nat)
    (hk : k < st1.running.length) :
    unfinished (finishStep st1 i k) + 1 = unfinished st1 := by
  have hlen := eraseIdx_length_succ st1.running k hk
  simp only [unfinished, finishStep]
  omega

/-- A run that ends with the event loop idle (no task running, none pending)
satisfies the postcondition with no exception. -/
theorem idle_post (c n : Nat) (res : Nat → Except String String)
    (st1 : SchedState) (hinv : SchedInv c n res st1)
    (hr : st1.running = []) (hp : st1.pending = []) :
    SchedPost c n res (st1, none) := by
  obtain ⟨h1, h2, h3, h4, h5, h6, h7, h8⟩ := hinv
  rw [hr, hp] at h1
  rw [hr] at h2
  simp only [Multiset.coe_nil, zero_add] at h1 h2
  have hfin : st1.finished.Perm (List.range n) := Multiset.coe_eq_coe.mp h1
  have hinvk : st1.invoked.Perm st1.finished := Multiset.coe_eq_coe.mp h2
  refine ⟨h5, ?_, ?_, ?_, ?_, ?_, ?_, ?_⟩
  · show (↑st1.released : Multiset Nat) = ↑st1.invoked
    rw [h3, h2]
  · exact (hinvk.trans hfin).nodup_iff.mpr (List.nodup_range n)
  · show st1.sem = c
    rw [hr] at h4
    simpa using h4
  · intro _
    exact ⟨hp, hr, hfin, h3, hinvk.trans hfin, h6, h7⟩
  · intro _ i hi
    exact h8 i (hfin.mem_iff.mpr (List.mem_range.mpr hi))
  · intro e he
    exact absurd he (by simp)
  · intro e he
    exact absurd he (by simp)

/-- Completion of a failing task — whose permit release first wakes the head
FIFO waiter, letting it launch its subprocess — followed by the shutdown
cancellation, yields the failure postcondition. -/
theorem abort_post (c n : Nat) (res : Nat → Except String String)
    (st1 : SchedState) (k : Nat) (hinv : SchedInv c n res st1)
    (hk : k < st1.running.length) (e : String)
    (hres : res (st1.running.getD k 0) = Except.error e) :
    SchedPost c n res
      (abortState (abortAdmit (finishStep st1 (st1.running.getD k 0) k)),
        some e) := by
  obtain ⟨h1, h2, h3, h4, h5, h6, h7, h8⟩ := hinv
  have hi : st1.running.getD k 0 = st1.running[k] := List.getD_eq_getElem _ 0 hk
  have hmem : st1.running.getD k 0 ∈ st1.running := by
    rw [hi]
    exact List.getElem_mem hk
  have hfailrep : ∃ i, i < n ∧ res i = Except.error e :=
    ⟨st1.running.getD k 0,
      running_mem_range c n res st1 ⟨h1, h2, h3, h4, h5, h6, h7, h8⟩ _ hmem,
      hres⟩
  have hsplit : (st1.running : Multiset Nat) =
      st1.running[k] ::ₘ ↑(st1.running.eraseIdx k) := multiset_eraseIdx _ _ hk
  rw [← Multiset.singleton_add, ← hi] at hsplit
  have hlen := eraseIdx_length_succ st1.running k hk
  rcases hp : st1.pending with _ | ⟨j, ps⟩
  · have ha : abortAdmit (finishStep st1 (st1.running.getD k 0) k) =
        finishStep st1 (st1.running.getD k 0) k := by
      simp [abortAdmit, finishStep, hp]
    rw [ha]
    have hnodup : (↑st1.invoked : Multiset Nat).Nodup := by
      rw [h2]
      have hle : (↑st1.running + ↑st1.finished : Multiset Nat) ≤
          ↑st1.pending + ↑st1.running + ↑st1.finished := by
        rw [add_assoc]
        exact le_add_self
      rw [h1] at hle
      exact Multiset.nodup_of_le hle (by simpa using List.nodup_range n)
    refine ⟨h5, ?_, by simpa using hnodup, ?_, ?_, ?_, ?_, ?_⟩
    · show (↑((st1.released ++ [st1.running.getD k 0])
          ++ st1.running.eraseIdx k) : Multiset Nat) = ↑st1.invoked
      rw [h2, h3, hsplit]
      simp only [← Multiset.coe_add, ← Multiset.cons_coe,
        Multiset.coe_singleton, ← Multiset.singleton_add]
      abel
    · show st1.sem + 1 + (st1.running.eraseIdx k).length = c
      omega
    · intro hnone
      exact absurd hnone (by simp)
    · intro hnone
      exact absurd hnone (by simp)
    · intro e' he'
      rcases Option.some.inj he' with rfl
      exact hfailrep
    · intro e' he'
      rcases Option.some.inj he' with rfl
      refine ⟨st1.running.getD k 0, ?_, hres, ?_, ?_, ?_, rfl, rfl⟩
      · show (st1.finished ++ [st1.running.getD k 0]).getLast? =
          some (st1.running.getD k 0)
        exact List.getLast?_concat _
      · show ∀ j' ∈ (st1.finished ++ [st1.running.getD k 0]).dropLast,
          ∃ v, res j' = Except.ok v
        rw [List.dropLast_concat]
        exact h8
      · show ((st1.finished ++ [st1.running.getD k 0])
            ++ st1.running.eraseIdx k ++ st1.pending).Perm (List.range n)
        rw [← Multiset.coe_eq_coe, ← h1, hsplit]
        simp only [← Multiset.coe_add, ← Multiset.cons_coe,
          Multiset.coe_singleton, ← Multiset.singleton_add]
        abel
      · show st1.invoked.Perm ((st1.finished ++ [st1.running.getD k 0])
            ++ st1.running.eraseIdx k)
        rw [← Multiset.coe_eq_coe, h2, hsplit]
        simp only [← Multiset.coe_add, ← Multiset.cons_coe,
          Multiset.coe_singleton, ← Multiset.singleton_add]
        abel
  · have ha : abortAdmit (finishStep st1 (st1.running.getD k 0) k) =
        { pending := ps
          running := st1.running.eraseIdx k ++ [j]
          sem := st1.sem
          peak := max st1.peak ((st1.running.eraseIdx k).length + 1)
          invoked := st1.invoked ++ [j]
          released := st1.released ++ [st1.running.getD k 0]
          finished := st1.finished ++ [st1.running.getD k 0]
          cancelled := st1.cancelled
          interrupted := st1.interrupted } := by
      simp [abortAdmit, finishStep, hp]
    rw [ha]
    rw [hp] at h1
    have hrange : (↑(List.range n) : Multiset Nat) =
        ↑(st1.invoked ++ [j]) + ↑ps := by
      rw [← h1]
      simp only [← Multiset.coe_add, ← Multiset.cons_coe,
        Multiset.coe_singleton, ← Multiset.singleton_add]
      rw [h2]
      abel
    have hnodup : (↑(st1.invoked ++ [j]) : Multiset Nat).Nodup := by
      have hle : (↑(st1.invoked ++ [j]) : Multiset Nat) ≤ ↑(List.range n) := by
        rw [hrange]
        exact self_le_add_right _ _
      exact Multiset.nodup_of_le hle (by simpa using List.nodup_range n)
    refine ⟨?_, ?_, by simpa using hnodup, ?_, ?_, ?_, ?_, ?_⟩
    · show max st1.peak ((st1.running.eraseIdx k).length + 1) ≤ c
      exact max_le h5 (by omega)
    · show (↑((st1.released ++ [st1.running.getD k 0])
          ++ (st1.running.eraseIdx k ++ [j])) : Multiset Nat) =
        ↑(st1.invoked ++ [j])
      rw [h3]
      simp only [← Multiset.coe_add, ← Multiset.cons_coe,
        Multiset.coe_singleton, ← Multiset.singleton_add]
      rw [h2, hsplit]
      abel
    · show st1.sem + (st1.running.eraseIdx k ++ [j]).length = c
      simp only [List.length_append, List.length_cons, List.length_nil]
      omega
    · intro hnone
      exact absurd hnone (by simp)
    · intro hnone
      exact absurd hnone (by simp)
    · intro e' he'
      rcases Option.some.inj he' with rfl
      exact hfailrep
    · intro e' he'
      rcases Option.some.inj he' with rfl
      refine ⟨st1.running.getD k 0, ?_, hres, ?_, ?_, ?_, rfl, rfl⟩
      · show (st1.finished ++ [st1.running.getD k 0]).getLast? =
          some (st1.running.getD k 0)
        exact List.getLast?_concat _
      · show ∀ j' ∈ (st1.finished ++ [st1.running.getD k 0]).dropLast,
          ∃ v, res j' = Except.ok v
        rw [List.dropLast_concat]
        exact h8
      · show ((st1.finished ++ [st1.running.getD k 0])
            ++ (st1.running.eraseIdx k ++ [j]) ++ ps).Perm (List.range n)
        rw [← Multiset.coe_eq_coe, ← h1, hsplit]
        simp only [← Multiset.coe_add, ← Multiset.cons_coe,
          Multiset.coe_singleton, ← Multiset.singleton_add]
        abel
      · show (st1.invoked ++ [j]).Perm ((st1.finished
            ++ [st1.running.getD k 0]) ++ (st1.running.eraseIdx k ++ [j]))
        rw [← Multiset.coe_eq_coe]
        simp only [← Multiset.coe_add, ← Multiset.cons_coe,
          Multiset.coe_singleton, ← Multiset.singleton_add]
        rw [h2, hsplit]
        abel

/-- Main scheduler lemma: from any invariant-satisfying state, with enough
fuel and at least one permit, the event loop establishes the postcondition. -/
theorem loopRun_post (c n : Nat) (res : Nat → Except String String)
    (hc : 0 < c) :
    ∀ (fuel : Nat) (sched : List Nat) (st : SchedState),
      SchedInv c n res st → unfinished st + 1 ≤ fuel →
      SchedPost c n res (loopRun res sched fuel st) := by
  intro fuel
  induction fuel with
  | zero =>
    intro sched st _ hfuel
    exact absurd hfuel (by omega)
  | succ fuel ih =>
    intro sched st hinv hfuel
    have hinv1 : SchedInv c n res (admitAll st) :=
      admitGo_schedInv c n res st.pending st rfl hinv
    have hflds := admitGo_fields st.pending st
    have hunf1 : unfinished (admitAll st) = unfinished st := by
      simpa [unfinished, admitAll] using hflds.2.2.2.2
    by_cases hlen : (admitAll st).running.length = 0
    · have hout : loopRun res sched (fuel + 1) st = (admitAll st, none) := by
        simp only [loopRun, hlen]
        simp
      rw [hout]
      have hr : (admitAll st).running = [] := List.length_eq_zero.mp hlen
      have hp : (admitAll st).pending = [] := by
        by_contra hne
        have h0 : (admitAll st).sem = 0 :=
          admitGo_pending_ne_nil st.pending st hne
        have hs := hinv1.semEq
        rw [h0, hlen] at hs
        omega
      exact idle_post c n res (admitAll st) hinv1 hr hp
    · have hklt : sched.headD 0 % (admitAll st).running.length <
          (admitAll st).running.length := Nat.mod_lt _ (by omega)
      rcases hres : res ((admitAll st).running.getD
          (sched.headD 0 % (admitAll st).running.length) 0) with e | v
      · have hout : loopRun res sched (fuel + 1) st =
            (abortState (abortAdmit (finishStep (admitAll st)
              ((admitAll st).running.getD
                (sched.headD 0 % (admitAll st).running.length) 0)
              (sched.headD 0 % (admitAll st).running.length))), some e) := by
          simp only [loopRun, hlen, hres]
          simp
        rw [hout]
        exact abort_post c n res (admitAll st) _ hinv1 hklt e hres
      · have hout : loopRun res sched (fuel + 1) st =
            loopRun res sched.tail fuel (finishStep (admitAll st)
              ((admitAll st).running.getD
                (sched.headD 0 % (admitAll st).running.length) 0)
              (sched.headD 0 % (admitAll st).running.length)) := by
          simp only [loopRun, hlen, hres]
          simp
        rw [hout]
        have hinv2 := finishStep_schedInv c n res (admitAll st) _ hinv1 hklt v hres
        have hunf2 := finishStep_unfinished (admitAll st)
          ((admitAll st).running.getD
            (sched.headD 0 % (admitAll st).running.length) 0)
          (sched.headD 0 % (admitAll st).running.length) hklt
        exact ih sched.tail _ hinv2 (by omega)

/-- The postcondition holds for every full scheduler run with at least one
permit, for every schedule (completion order) of the subprocesses. -/
theorem schedExec_post (c n : Nat) (res : Nat → Except String String)
    (sched : List Nat) (hc : 0 < c) :
    SchedPost c n res (schedExec c n res sched) := by
  apply loopRun_post c n res hc
  · exact schedInv_initSched c n res
  · simp [unfinished, initSched]

/-- If a run raises no exception, every task succeeded, so a run over a task
set containing a failing task always raises. -/
theorem schedExec_some_of_fail (c n : Nat) (res : Nat → Except String String)
    (sched : List Nat) (hc : 0 < c)
    (hfail : ∃ i, i < n ∧ ∃ e, res i = Except.error e) :
    ∃ e, (schedExec c n res sched).2 = some e := by
  rcases ho : (schedExec c n res sched).2 with _ | e
  · obtain ⟨i, hi, e, he⟩ := hfail
    obtain ⟨v, hv⟩ := (schedExec_post c n res sched hc).allOk ho i hi
    rw [he] at hv
    cases hv
  · exact ⟨e, rfl⟩

/-- If every task succeeds the run raises nothing. -/
theorem schedExec_none_of_ok (c n : Nat) (res : Nat → Except String String)
    (sched : List Nat) (hc : 0 < c)
    (hok : ∀ i, i < n → ∃ v, res i = Except.ok v) :
    (schedExec c n res sched).2 = none := by
  rcases ho : (schedExec c n res sched).2 with _ | e
  · rfl
  · obtain ⟨i, hi, herr⟩ := (schedExec_post c n res sched hc).failReported e ho
    obtain ⟨v, hv⟩ := hok i hi
    rw [herr] at hv
    cases hv

/-- Monadic map over `Except` where every element succeeds. -/
theorem mapM_eq_map_of_ok (res : Nat → Except String String)
    (g : Nat → String) :
    ∀ l : List Nat, (∀ i ∈ l, res i = Except.ok (g i)) →
      l.mapM res = Except.ok (l.map g) := by
  intro l
  induction l with
  | nil => intro _; rfl
  | cons a t ih =>
    intro h
    rw [List.mapM_cons, h a (List.mem_cons_self a t), ih
      (fun i hi => h i (List.mem_cons_of_mem a hi))]
    rfl

/-- Reading a list back by indices reproduces the list. -/
theorem map_getD_range (l : List String) (d : String) :
    (List.range l.length).map (fun i => l.getD i d) = l := by
  induction l with
  | nil => simp
  | cons a t ih =>
    rw [List.length_cons, List.range_succ_eq_map]
    simp only [List.map_cons, List.map_map]
    have hcomp : ((fun i => (a :: t).getD i d) ∘ Nat.succ) =
        fun i => t.getD i d := by
      funext i
      simp [List.getD]
    rw [hcomp, ih]
    simp [List.getD]

/-- One artifact per source file. -/
theorem taskArtifacts_length (zig_files c_files cpp_files : List String)
    (source_dir build_dir : String) :
    (taskArtifacts zig_files c_files cpp_files source_dir build_dir).length =
      zig_files.length + c_files.length + cpp_files.length := by
  simp [taskArtifacts]
  omega

/-- A compile task of the build records a successful result exactly when its
compiler subprocess exits with code 0. -/
theorem taskRes_ok_iff (env : BuildEnv) (i : Nat) :
    (∃ v, env.taskRes i = Except.ok v) ↔ env.exitOf i = 0 := by
  unfold BuildEnv.taskRes
  constructor
  · intro ⟨v, hv⟩
    by_contra hne
    rw [if_neg hne] at hv
    cases hv
  · intro h
    rw [if_pos h]
    exact ⟨_, rfl⟩

/-- When `".o"` does not occur in `s`, the left-to-right replacement scan on
`s ++ ".o"` leaves `s` untouched and rewrites only the final occurrence. -/
theorem replaceFuel_clean_suffix (r : List Char) :
    ∀ (fuel : Nat) (s : List Char), s.length + 2 ≤ fuel →
      hasSubstr ['.', 'o'] s = false →
      replaceFuel ['.', 'o'] r fuel (s ++ ['.', 'o']) = s ++ r := by
  intro fuel
  induction fuel with
  | zero =>
    intro s hlen _
    exact absurd hlen (by omega)
  | succ fuel ih =>
    intro s hlen hsub
    cases s with
    | nil =>
      simp only [List.nil_append]
      show replaceFuel ['.', 'o'] r (fuel + 1) ['.', 'o'] = r
      rw [replaceFuel]
      rw [if_pos]
      · simp only [List.length_cons, List.length_nil]
        show r ++ replaceFuel ['.', 'o'] r fuel (['o'].drop (0 + 1 + 1 - 1)) = r
        simp [replaceFuel]
      · exact ⟨by simp, by simp [List.isPrefixOf]⟩
    | cons a t =>
      have hsub1 : (['.', 'o'].isPrefixOf (a :: t)) = false ∧
          hasSubstr ['.', 'o'] t = false := by
        have := hsub
        simp only [hasSubstr, Bool.or_eq_false_iff] at this
        exact this
      have hnp : (['.', 'o'].isPrefixOf (a :: (t ++ ['.', 'o']))) = false := by
        cases t with
        | nil =>
          simp only [List.nil_append]
          show (['.', 'o'].isPrefixOf [a, '.', 'o']) = false
          simp only [List.isPrefixOf, List.isPrefixOf_cons₂]
          by_cases h : a = '.'
          · subst h
            decide
          · simp [List.isPrefixOf, h]
        | cons b t' =>
          have h1 := hsub1.1
          simp only [List.cons_append]
          simp only [List.isPrefixOf] at h1 ⊢
          rcases Bool.and_eq_false_iff.mp h1 with h | h
          · rw [h]
            simp
          · rcases Bool.and_eq_false_iff.mp h with h' | h'
            · rw [h']
              simp
            · simp at h'
      show replaceFuel ['.', 'o'] r (fuel + 1) (a :: (t ++ ['.', 'o'])) =
        a :: (t ++ r)
      rw [replaceFuel, if_neg]
      · rw [ih t (by simp at hlen; omega) hsub1.2]
      · intro ⟨_, hpre⟩
        rw [hnp] at hpre
        cases hpre

/-- String version: replacing `".o"` by `".obj"` on an artifact path whose
only occurrence of `".o"` is its extension rewrites exactly the extension. -/
theorem pyReplace_clean_suffix (s : String)
    (h : hasSubstr ['.', 'o'] s.data = false) :
    pyReplace (s ++ ".o") ".o" ".obj" = s ++ ".obj" := by
  apply String.ext
  show replaceList ['.', 'o'] ['.', 'o', 'b', 'j'] (s ++ ".o").data =
    (s ++ ".obj").data
  rw [String.data_append, String.data_append]
  show replaceFuel ['.', 'o'] ['.', 'o', 'b', 'j']
      (s.data ++ ['.', 'o']).length (s.data ++ ['.', 'o']) =
    s.data ++ ['.', 'o', 'b', 'j']
  exact replaceFuel_clean_suffix ['.', 'o', 'b', 'j'] _ s.data
    (by simp) h

/- ### Claims -/

/-- C1: the spec says the C/C++ compile task returns the computed output path
exactly when the compiler exits with code 0 and fails, after capturing and
logging the compiler's stdout/stderr, exactly when the exit code is non-zero.
The code instead reads `res.returncode` immediately after
`create_subprocess_exec`, without `await res.wait()`; the attribute is still
`None` there, Python evaluates `None != 0` to `True`, and the task raises for
every C/C++ source regardless of the compiler's exit code — and it never
pipes, captures or prints the compiler's output (streams are inherited).  In
particular a C compile whose compiler exits 0 still raises. -/
theorem c_cpp_compile_task_always_raises :
    (∀ (runner : Runner) (file_path out : String) (option compiler : List String),
      (compile_source_c_cpp_async runner file_path compiler (some out)
        option).result =
        Except.error ("Compilation failed for " ++ file_path) ∧
      (compile_source_c_cpp_async runner file_path compiler (some out)
        option).printed = [compileHeader file_path out]) ∧
    (compile_c_source_async zeroExitRunner "src/a.c" (some "build/a.o")
      []).result = Except.error ("Compilation failed for " ++ "src/a.c") := by
  constructor
  · intro runner file_path out option compiler
    exact ⟨rfl, rfl⟩
  · rfl

/-- C2 (counterexample): with one permit and the failing task finishing
first, the failing task's permit release wakes the next FIFO waiter (task 1),
which launches its compiler subprocess and is then interrupted by the
shutdown cancellation, while tasks 2, 3 and 4 are cancelled without ever
being attempted; only one task (the failing one) reaches completion.  This
refutes the claim that the scheduler waits for every launched task to reach
completion before raising and that the other four tasks are still
attempted. -/
theorem scheduler_wait_all_counterexample :
    (schedExec 1 5 oneFailingOfFive []).2 = some "boom" ∧
    (schedExec 1 5 oneFailingOfFive []).1.invoked = [0, 1] ∧
    (schedExec 1 5 oneFailingOfFive []).1.finished = [0] ∧
    (schedExec 1 5 oneFailingOfFive []).1.interrupted = [1] ∧
    (schedExec 1 5 oneFailingOfFive []).1.cancelled = [2, 3, 4] ∧
    ¬ (∀ j, j < 5 → j ∈ (schedExec 1 5 oneFailingOfFive []).1.invoked) := by
  refine ⟨by decide, by decide, by decide, by decide, by decide, ?_⟩
  intro hall
  exact absurd (hall 2 (by decide)) (by decide)

/-- C2 (amended): when one of the `n` compile tasks fails, the scheduler
raises as soon as the first failing task completes — the propagated error is
that task's diagnostic, every task that completed before it succeeded — and
the remaining tasks are not awaited: the failing task's permit release wakes
the next FIFO waiter, which launches its subprocess before the shutdown
cancellation lands, and at shutdown each task is either completed,
interrupted mid-subprocess, or cancelled while still waiting for a permit
(never attempted), the three groups partitioning the `n` tasks. -/
theorem scheduler_aborts_on_first_failure (c n : Nat)
    (res : Nat → Except String String) (sched : List Nat) (hc : 0 < c)
    (hfail : ∃ i, i < n ∧ ∃ e, res i = Except.error e) :
    ∃ e, (schedExec c n res sched).2 = some e ∧
      (∃ i, i < n ∧ res i = Except.error e) ∧
      (∃ i, (schedExec c n res sched).1.finished.getLast? = some i ∧
        res i = Except.error e ∧
        ∀ j ∈ (schedExec c n res sched).1.finished.dropLast,
          ∃ v, res j = Except.ok v) ∧
      ((schedExec c n res sched).1.finished ++
        (schedExec c n res sched).1.interrupted ++
        (schedExec c n res sched).1.cancelled).Perm (List.range n) := by
  obtain ⟨e, he⟩ := schedExec_some_of_fail c n res sched hc hfail
  have post := schedExec_post c n res sched hc
  obtain ⟨i, h1, h2, h3, h4, h5, h6, h7⟩ := post.failShape e he
  exact ⟨e, he, post.failReported e he, ⟨i, h1, h2, h3⟩, h4⟩

/-- Witness for C2's amended theorem at a concrete failing run. -/
theorem scheduler_aborts_on_first_failure_witness :
    ∃ e, (schedExec 1 5 oneFailingOfFive []).2 = some e ∧
      (∃ i, i < 5 ∧ oneFailingOfFive i = Except.error e) ∧
      (∃ i, (schedExec 1 5 oneFailingOfFive []).1.finished.getLast? = some i ∧
        oneFailingOfFive i = Except.error e ∧
        ∀ j ∈ (schedExec 1 5 oneFailingOfFive []).1.finished.dropLast,
          ∃ v, oneFailingOfFive j = Except.ok v) ∧
      ((schedExec 1 5 oneFailingOfFive []).1.finished ++
        (schedExec 1 5 oneFailingOfFive []).1.interrupted ++
        (schedExec 1 5 oneFailingOfFive []).1.cancelled).Perm (List.range 5) :=
  scheduler_aborts_on_first_failure 1 5 oneFailingOfFive [] (by decide)
    ⟨0, by decide, "boom", rfl⟩

/-- C3 (counterexample): the claim's unconditional "exactly N invocations
total" is false of the fail-fast code: with one permit and one failing task
among five, the run launches only two of the five compiler subprocesses (the
failing task's, and that of the waiter its permit release wakes) before the
remaining tasks are cancelled at shutdown. -/
theorem scheduler_exact_invocations_counterexample :
    (schedExec 1 5 oneFailingOfFive []).1.invoked.length = 2 ∧
    ¬ (schedExec 1 5 oneFailingOfFive []).1.invoked.length = 5 := by
  exact ⟨by decide, by decide⟩

/-- C3 (amended): for every task set, permit count `c > 0` and completion
order, the scheduler admits at most `c` tasks into the semaphore at any
point (the peak of concurrent permit holders is at most `c`); no task
acquires the gate or launches its subprocess twice, so the external compiler
is invoked at most once per source file; every acquired permit is released
exactly once whether its task succeeds, fails or is interrupted at shutdown
(the multiset of releases equals the multiset of acquisitions, and all
permits are back in the pool at the end, so a failing task never leaks a
permit); and a run in which no task fails — the only runs that complete —
invokes the compiler exactly once per source file, `n` invocations total.
In a failing run the fail-fast abort cancels tasks, so fewer than `n` may
be invoked. -/
theorem scheduler_concurrency_and_permit_invariants (c n : Nat)
    (res : Nat → Except String String) (sched : List Nat) (hc : 0 < c) :
    (schedExec c n res sched).1.peak ≤ c ∧
    (schedExec c n res sched).1.invoked.Nodup ∧
    ((schedExec c n res sched).1.released : Multiset Nat) =
      ↑(schedExec c n res sched).1.invoked ∧
    (schedExec c n res sched).1.sem = c ∧
    ((schedExec c n res sched).2 = none →
      (schedExec c n res sched).1.invoked.Perm (List.range n)) := by
  have post := schedExec_post c n res sched hc
  exact ⟨post.peakLe, post.invokedNodup, post.releasedMatchesInvoked,
    post.semRestored, fun hn => (post.complete hn).2.2.2.2.1⟩

/-- Witness for C3 at a concrete run (three tasks, two permits). -/
theorem scheduler_concurrency_and_permit_invariants_witness :
    (schedExec 2 3 (fun _ => Except.ok "obj") []).1.peak ≤ 2 ∧
    (schedExec 2 3 (fun _ => Except.ok "obj") []).1.invoked.Nodup ∧
    ((schedExec 2 3 (fun _ => Except.ok "obj") []).1.released : Multiset Nat) =
      ↑(schedExec 2 3 (fun _ => Except.ok "obj") []).1.invoked := by
  have h := scheduler_concurrency_and_permit_invariants 2 3
    (fun _ => Except.ok "obj") [] (by decide)
  exact ⟨h.1, h.2.1, h.2.2.1⟩

/-- C4: if any compile task's subprocess exits non-zero the whole build
result is a failure and the link step is never invoked; conversely the link
step only runs when every compile task's subprocess exited 0. -/
theorem build_failure_skips_link (env : BuildEnv) (hc : 0 < env.cpuCount) :
    ((∃ i, i < env.taskCount ∧ env.exitOf i ≠ 0) →
      (∃ e, (buildMain env).result = Except.error e) ∧
      (buildMain env).linkInvoked = false) ∧
    ((buildMain env).linkInvoked = true →
      ∀ i, i < env.taskCount → env.exitOf i = 0) := by
  by_cases hsdl : pkg_config_exists env.pkgRunner "sdl2"
  case neg =>
    have hinit : init_sdl2 env.pkgRunner = Except.error sdl2MissingMsg := by
      simp [init_sdl2, Bool.eq_false_iff.mpr hsdl]
    constructor
    · intro _
      exact ⟨⟨sdl2MissingMsg, by simp [buildMain, hinit]⟩,
        by simp [buildMain, hinit]⟩
    · intro hlink
      simp [buildMain, hinit] at hlink
  case pos =>
    have hinit : init_sdl2 env.pkgRunner =
        Except.ok (get_pkg_config_cflags env.pkgRunner "sdl2") := by
      simp [init_sdl2, hsdl]
    constructor
    · rintro ⟨i, hi, hne⟩
      have herr : env.taskRes i = Except.error ("Compilation failed for "
          ++ (taskSources env.zig_files env.c_files env.cpp_files).getD i "") := by
        unfold BuildEnv.taskRes
        rw [if_neg hne]
      obtain ⟨e, he⟩ := schedExec_some_of_fail env.cpuCount env.taskCount
        env.taskRes env.sched hc ⟨i, hi, _, herr⟩
      have hg : gatherResult env.cpuCount env.taskCount env.taskRes
          env.sched = Except.error e := by
        unfold gatherResult
        rw [he]
      exact ⟨⟨e, by simp [buildMain, hinit, hg]⟩, by simp [buildMain, hinit, hg]⟩
    · intro hlink i hi
      have hnone : (schedExec env.cpuCount env.taskCount env.taskRes
          env.sched).2 = none := by
        rcases he : (schedExec env.cpuCount env.taskCount env.taskRes
            env.sched).2 with _ | e
        · rfl
        · have hg : gatherResult env.cpuCount env.taskCount env.taskRes
              env.sched = Except.error e := by
            unfold gatherResult
            rw [he]
          simp [buildMain, hinit, hg] at hlink
      have post := schedExec_post env.cpuCount env.taskCount env.taskRes
        env.sched hc
      exact (taskRes_ok_iff env i).mp (post.allOk hnone i hi)

/-- Witness for C4: the concrete build whose C task fails produces a failed
result without linking. -/
theorem build_failure_skips_link_witness :
    (∃ e, (buildMain sampleEnvFail).result = Except.error e) ∧
    (buildMain sampleEnvFail).linkInvoked = false :=
  (build_failure_skips_link sampleEnvFail (by decide)).1
    ⟨1, by decide, by decide⟩

/-- C5 (counterexample): the Windows rename `obj.replace(".o", ".obj")`
replaces every occurrence of the substring `".o"`, not only the final
extension.  The artifact `"build/a.one.o"` (arising from a source file
`src/a.one.c`) is renamed to `"build/a.objne.obj"`, not to the
extension-rewrite `"build/a.one.obj"`. -/
theorem windows_rename_counterexample :
    windowsObjectRename ["build/a.one.o"] = ["build/a.objne.obj"] ∧
    ¬ windowsObjectRename ["build/a.one.o"] = ["build/a.one.obj"] := by
  exact ⟨by decide, by decide⟩

/-- C5 (amended): on a Windows-family target every artifact path has every
occurrence of the substring `".o"` replaced by `".obj"`; when the only
occurrence of `".o"` in a path is its final extension this coincides with
rewriting the extension, and on the spec's example list it yields exactly the
claimed values; the output path gets `".exe"` appended. -/
theorem windows_rename_amended :
    (∀ list_object : List String, windowsObjectRename list_object =
      list_object.map (fun obj => pyReplace obj ".o" ".obj")) ∧
    (∀ s : String, hasSubstr ['.', 'o'] s.data = false →
      pyReplace (s ++ ".o") ".o" ".obj" = s ++ ".obj") ∧
    windowsObjectRename ["build/a.o", "build/b.o"] =
      ["build/a.obj", "build/b.obj"] ∧
    pyPathJoin "build" "app" ++ ".exe" = "build/app.exe" := by
  exact ⟨fun _ => rfl, pyReplace_clean_suffix, by decide, by decide⟩

/-- Witness for C5's amended theorem: a clean artifact path is rewritten as
an extension rewrite. -/
theorem windows_rename_amended_witness :
    pyReplace ("build/a" ++ ".o") ".o" ".obj" = "build/a" ++ ".obj" :=
  windows_rename_amended.2.1 "build/a" (by decide)

/-- C6: translating `src/a/b.cpp` under source root `src` and build root
`build` yields `build/a/b.o` (likewise for a deeper-nested C file), and the
translation is a pure function of its arguments, so processing the same file
twice yields the same path both times. -/
theorem translate_to_build_path_example_deterministic :
    translate_to_build_path "src/a/b.cpp" "src" "build" = "build/a/b.o" ∧
    translate_to_build_path "src/nested/dir/c.c" "src" "build" =
      "build/nested/dir/c.o" ∧
    (∀ file_path source_dir build_dir : String,
      translate_to_build_path file_path source_dir build_dir =
        translate_to_build_path file_path source_dir build_dir) := by
  exact ⟨by decide, by decide, fun _ _ _ => rfl⟩

/-- Definitional restatement of the link task in terms of `link_command`. -/
theorem link_executable_unfold (runner : Runner) (object_files : List String)
    (output_executable : String) (option : List String) :
    link_executable runner object_files output_executable option =
      if (runner (link_command output_executable object_files
          option)).exitCode ≠ 0 then
        { result := Except.error ("Linking failed for " ++ output_executable)
          printed := ["Compile: " ++ joinSep " + " object_files ++ " -> "
              ++ output_executable,
            (runner (link_command output_executable object_files
              option)).stdout,
            (runner (link_command output_executable object_files
              option)).stderr,
            joinSep " " (link_command output_executable object_files option)]
          command := link_command output_executable object_files option }
      else
        { result := Except.ok output_executable
          printed := ["Compile: " ++ joinSep " + " object_files ++ " -> "
              ++ output_executable]
          command := link_command output_executable object_files option } :=
  rfl

/-- C7: the link task invokes `zig build-exe` with the emit-to-path flag
naming the output, then the full artifact list, then the link flags; it
returns the executable path exactly when the linker exits with code 0, and
on a non-zero exit it prints the captured stdout, the captured stderr and
the attempted command line, and fails with the link diagnostic. -/
theorem link_executable_contract (runner : Runner) (object_files : List String)
    (output_executable : String) (option : List String) :
    (link_executable runner object_files output_executable option).command =
      link_command output_executable object_files option ∧
    ((link_executable runner object_files output_executable option).result =
        Except.ok output_executable ↔
      (runner (link_command output_executable object_files option)).exitCode
        = 0) ∧
    ((runner (link_command output_executable object_files option)).exitCode
        ≠ 0 →
      (link_executable runner object_files output_executable option).result =
        Except.error ("Linking failed for " ++ output_executable) ∧
      (link_executable runner object_files output_executable option).printed =
        ["Compile: " ++ joinSep " + " object_files ++ " -> "
          ++ output_executable,
         (runner (link_command output_executable object_files option)).stdout,
         (runner (link_command output_executable object_files option)).stderr,
         joinSep " " (link_command output_executable object_files option)]) := by
  rw [link_executable_unfold]
  by_cases hz : (runner (link_command output_executable object_files
      option)).exitCode = 0
  · rw [if_neg (not_not_intro hz)]
    refine ⟨rfl, ?_, fun h => absurd hz h⟩
    simp [hz]
  · rw [if_pos hz]
    refine ⟨rfl, ?_, fun _ => ⟨rfl, rfl⟩⟩
    simp [hz]

/-- Witness for C7 at a concrete failing linker. -/
theorem link_executable_contract_witness :
    (link_executable oneExitRunner ["a.o"] "app" []).result =
      Except.error ("Linking failed for " ++ "app") :=
  ((link_executable_contract oneExitRunner ["a.o"] "app" []).2.2
    (by decide)).1

/-- C8: when pkg-config does not know sdl2 the build raises the fatal SDL2
configuration error and stops before the scheduler sees a single task: no
task is created, none is invoked or finished, and the link step never
runs. -/
theorem missing_sdl2_fatal_before_compile (env : BuildEnv)
    (h : pkg_config_exists env.pkgRunner "sdl2" = false) :
    (buildMain env).result = Except.error sdl2MissingMsg ∧
    (buildMain env).linkInvoked = false ∧
    (buildMain env).schedState.invoked = [] ∧
    (buildMain env).schedState.finished = [] ∧
    (buildMain env).schedState.pending = [] := by
  have hinit : init_sdl2 env.pkgRunner = Except.error sdl2MissingMsg := by
    simp [init_sdl2, h]
  refine ⟨?_, ?_, ?_, ?_, ?_⟩ <;> simp [buildMain, hinit, initSched]

/-- Witness for C8 at a concrete build environment without sdl2. -/
theorem missing_sdl2_fatal_before_compile_witness :
    (buildMain sampleEnvNoSdl).result = Except.error sdl2MissingMsg ∧
    (buildMain sampleEnvNoSdl).schedState.invoked = [] := by
  have h := missing_sdl2_fatal_before_compile sampleEnvNoSdl (by decide)
  exact ⟨h.1, h.2.2.1⟩

/-- C9: when every compile subprocess exits 0, the scheduler's gathered
artifact list is exactly the per-task artifact paths in submission order —
every Zig artifact first, then every C artifact, then every C++ artifact,
each in input order — for every schedule, i.e. independently of the order in
which the concurrent tasks complete. -/
theorem artifacts_in_submission_order (env : BuildEnv) (sched : List Nat)
    (hc : 0 < env.cpuCount)
    (hok : ∀ i, i < env.taskCount → env.exitOf i = 0) :
    gatherResult env.cpuCount env.taskCount env.taskRes sched =
      Except.ok (taskArtifacts env.zig_files env.c_files env.cpp_files
        env.sourceDir env.buildDirArg) := by
  have hnone := schedExec_none_of_ok env.cpuCount env.taskCount env.taskRes
    sched hc (fun i hi => (taskRes_ok_iff env i).mpr (hok i hi))
  unfold gatherResult
  rw [hnone]
  have hres : ∀ i ∈ List.range env.taskCount, env.taskRes i = Except.ok
      ((taskArtifacts env.zig_files env.c_files env.cpp_files
        env.sourceDir env.buildDirArg).getD i "") := by
    intro i hi
    unfold BuildEnv.taskRes
    rw [if_pos (hok i (List.mem_range.mp hi))]
  rw [mapM_eq_map_of_ok env.taskRes _ (List.range env.taskCount) hres]
  have hlen : env.taskCount = (taskArtifacts env.zig_files env.c_files
      env.cpp_files env.sourceDir env.buildDirArg).length := by
    rw [taskArtifacts_length]
    rfl
  rw [hlen, map_getD_range]

/-- Witness for C9: the concrete healthy build returns its three artifacts
in submission order under a non-trivial completion schedule. -/
theorem artifacts_in_submission_order_witness :
    gatherResult sampleEnv.cpuCount sampleEnv.taskCount sampleEnv.taskRes
      [1, 0] = Except.ok (taskArtifacts sampleEnv.zig_files sampleEnv.c_files
        sampleEnv.cpp_files sampleEnv.sourceDir sampleEnv.buildDirArg) :=
  artifacts_in_submission_order sampleEnv [1, 0] (by decide)
    (fun _ _ => rfl)

/-- C10: the flag-query helpers of the library-detection module never
propagate a subprocess failure — each returns the empty list when its
pkg-config subprocess exits non-zero — so the absence of a package is only
detectable through the separate existence check, which reports false exactly
when its own pkg-config subprocess exits non-zero. -/
theorem pkg_config_flags_swallow_failure (runner : Runner)
    (package_name : String) :
    ((runner ["pkg-config", "--cflags", "--libs", package_name]).exitCode ≠ 0 →
      get_pkg_config_cflags runner package_name = []) ∧
    ((runner ["pkg-config", "--libs", package_name]).exitCode ≠ 0 →
      get_pkg_config_libs runner package_name = []) ∧
    (pkg_config_exists runner package_name = false ↔
      (runner ["pkg-config", "--exists", package_name]).exitCode ≠ 0) := by
  refine ⟨?_, ?_, ?_⟩
  · intro h
    simp [get_pkg_config_cflags, h]
  · intro h
    simp [get_pkg_config_libs, h]
  · simp [pkg_config_exists]

/-- Witness for C10 at a concrete always-failing pkg-config. -/
theorem pkg_config_flags_swallow_failure_witness :
    get_pkg_config_cflags oneExitRunner "sdl2" = [] ∧
    get_pkg_config_libs oneExitRunner "sdl2" = [] := by
  have h := pkg_config_flags_swallow_failure oneExitRunner "sdl2"
  exact ⟨h.1 (by decide), h.2.1 (by decide)⟩
